import Mathlib

/-!
Verification of the CiyuReader chapter reconstruction and segment-annotation
pipeline (src/main.py), as a shallow embedding in Lean 4.

External collaborators (the jieba tokenizer, the pypinyin transcriber, the
deep-translator backend, BeautifulSoup page parsing and the file system) are
modelled as explicit oracles; the pipeline logic itself (filename parsing,
grouping, paragraph splitting, the gloss-resolver retry loop, the renderer
state machine, per-chapter orchestration and source cleanup) is translated
directly from the source.  Machine reals used only as sleep durations are
modelled as rationals.
-/

set_option autoImplicit false

namespace CiyuReader

/-! ## Character helpers -/

/-- ASCII lowercasing, modelling the effect of `re.IGNORECASE` on the ASCII
literals of the filename pattern. -/
def lowerChar (c : Char) : Char :=
  if 'A' ≤ c ∧ c ≤ 'Z' then Char.ofNat (c.toNat + 32) else c

/-- ASCII uppercasing (used by the Python `str.title` model). -/
def upperChar (c : Char) : Char :=
  if 'a' ≤ c ∧ c ≤ 'z' then Char.ofNat (c.toNat - 32) else c

def isAsciiAlpha (c : Char) : Bool :=
  ('a' ≤ c && c ≤ 'z') || ('A' ≤ c && c ≤ 'Z')

/-- Whitespace stripped by Python `str.strip()` (ASCII whitespace plus the
common Unicode spaces; a faithful subset of Python's Unicode whitespace). -/
def pyIsSpace (c : Char) : Bool :=
  c = ' ' || c = '\t' || c = '\n' || c = '\r' ||
  c = '\x0b' || c = '\x0c' || c = ' ' || c = '　'

/-- Decimal-digit value of a character, modelling Python `\d` / `int()` on the
digit ranges relevant here (ASCII, Arabic-Indic, fullwidth). -/
def pyDigitVal (c : Char) : Option Nat :=
  if '0' ≤ c && c ≤ '9' then some (c.toNat - '0'.toNat)
  else if '٠' ≤ c && c ≤ '٩' then some (c.toNat - 0x660)
  else if '０' ≤ c && c ≤ '９' then some (c.toNat - 0xFF10)
  else none

def pyIsDigit (c : Char) : Bool := (pyDigitVal c).isSome

/-- CJK Unified Ideographs range test from the source:
`'一' <= char <= '鿿'`. -/
def isCJKChar (c : Char) : Bool :=
  '一' ≤ c && c ≤ '鿿'

/-- Python `str.isalnum` restricted to the character classes this program
meets (ASCII alphanumerics, CJK ideographs, kana, and the modelled digit
ranges). -/
def pyIsAlnumChar (c : Char) : Bool :=
  ('a' ≤ c && c ≤ 'z') || ('A' ≤ c && c ≤ 'Z') || pyIsDigit c ||
  isCJKChar c || ('぀' ≤ c && c ≤ 'ヿ')

/-! ## String helpers -/

/-- Python `str.strip()` on a character list. -/
def pyStrip (cs : List Char) : List Char :=
  ((cs.dropWhile pyIsSpace).reverse.dropWhile pyIsSpace).reverse

/-- Python `str.strip()` on a string. -/
def pyStripS (s : String) : String := String.mk (pyStrip s.toList)

/-- Python `str.lower()` (ASCII part). -/
def pyLower (s : String) : String := String.mk (s.toList.map lowerChar)

/-- Python `str.isalnum()`. -/
def pyIsAlnum (s : String) : Bool :=
  !s.toList.isEmpty && s.toList.all pyIsAlnumChar

/-- Does `pat` occur at the start of `cs`? -/
def startsWithList : List Char → List Char → Bool
  | [], _ => true
  | _ :: _, [] => false
  | p :: ps, c :: cs => p = c && startsWithList ps cs

/-- Does `pat` occur anywhere inside `s`?  Models Python `sub in s`. -/
def containsList (s pat : List Char) : Bool :=
  startsWithList pat s ||
    match s with
    | [] => false
    | _ :: rest => containsList rest pat

/-- Python `sub in s` on strings. -/
def pyContains (s sub : String) : Bool := containsList s.toList sub.toList

/-! ## `parse_filename` (src/main.py lines 62-69)

The source matches `re.match(r"volume(\d+)_chapter(\d+)_(\d+)\.html",
os.path.basename(filename), re.IGNORECASE)`.  `re.match` anchors at the start
only; each `\d+` is followed by a non-digit literal, so greedy maximal-munch
is exact and the match is deterministic. -/

/-- `os.path.basename`: the part of the path after the last `/`. -/
def basenameList (cs : List Char) : List Char :=
  cs.foldl (fun acc c => if c = '/' then [] else acc ++ [c]) []

def basename (p : String) : String := String.mk (basenameList p.toList)

/-- Match a literal case-insensitively at the head of the input, returning the
remaining input. -/
def matchCI : List Char → List Char → Option (List Char)
  | [], cs => some cs
  | _ :: _, [] => none
  | l :: ls, c :: cs => if lowerChar c = lowerChar l then matchCI ls cs else none

/-- Maximal run of `\d` digits at the head of the input. -/
def takeDigits : List Char → List Char × List Char
  | [] => ([], [])
  | c :: cs =>
    if pyIsDigit c then
      let (ds, rest) := takeDigits cs
      (c :: ds, rest)
    else ([], c :: cs)

/-- The regex `volume(\d+)_chapter(\d+)_(\d+)\.html` with `re.match`
(prefix) semantics: input after the final `.html` is ignored.  Returns the
three captured groups. -/
def regexCoreMatch (cs : List Char) : Option (String × String × String) :=
  match matchCI "volume".toList cs with
  | none => none
  | some r1 =>
    let (v, r2) := takeDigits r1
    if v.isEmpty then none else
    match matchCI "_chapter".toList r2 with
    | none => none
    | some r3 =>
      let (c, r4) := takeDigits r3
      if c.isEmpty then none else
      match matchCI "_".toList r4 with
      | none => none
      | some r5 =>
        let (p, r6) := takeDigits r5
        if p.isEmpty then none else
        match matchCI ".html".toList r6 with
        | none => none
        | some _ => some (String.mk v, String.mk c, String.mk p)

/-- Decimal value of a digit string (used once all characters are known to be
digits). -/
def digitsVal (cs : List Char) : Nat :=
  cs.foldl (fun a c => a * 10 + ((pyDigitVal c).getD 0)) 0

/-- Python `int(page_str)` for a candidate digit string: succeeds exactly when
the string is a non-empty run of decimal digits. -/
def pyIntOfDigits (s : String) : Option Nat :=
  if !s.toList.isEmpty && s.toList.all pyIsDigit then
    some (digitsVal s.toList)
  else none

/-- `parse_filename`: on a regex match, returns
`(volume, chapter, page_int, page_str)`; the `ValueError` branch (page group
not convertible to `int`) and the no-match branch both warn and return
`None`. -/
def parse_filename (filename : String) : Option (String × String × Nat × String) :=
  match regexCoreMatch (basename filename).toList with
  | some (v, c, p) =>
    match pyIntOfDigits p with
    | some n => some (v, c, n, p)
    | none => none
  | none => none

/-- Walk of the spec's page pattern `volume{V}_chapter{C}_{P}.html`
(case-insensitive) over a filename, returning the three captures and the
input left over after `.html`. -/
def specPageWalk (cs : List Char) : Option ((String × String × String) × List Char) :=
  match matchCI "volume".toList cs with
  | none => none
  | some r1 =>
    let (v, r2) := takeDigits r1
    if v.isEmpty then none else
    match matchCI "_chapter".toList r2 with
    | none => none
    | some r3 =>
      let (c, r4) := takeDigits r3
      if c.isEmpty then none else
      match matchCI "_".toList r4 with
      | none => none
      | some r5 =>
        let (p, r6) := takeDigits r5
        if p.isEmpty then none else
        match matchCI ".html".toList r6 with
        | none => none
        | some rest => some ((String.mk v, String.mk c, String.mk p), rest)

/-- Follows the spec's words: the page pattern `volume{V}_chapter{C}_{P}.html`
(case-insensitive), read as a shape for the whole filename when `anchored`,
and as a prefix of the filename otherwise.  Second definition kept for
comparison with the source's `re.match`-based parser. -/
def specPageMatch (anchored : Bool) (cs : List Char) : Option (String × String × String) :=
  (specPageWalk cs).bind fun t =>
    if anchored && !t.2.isEmpty then none else some t.1

/-! ## `segment_text_to_paragraphs` (src/main.py lines 104-105) -/

mutual

/-- `re.split(r'\n+', text)`: pieces between maximal newline runs, with the
current piece accumulated in reverse in `acc`. -/
def splitNlAux : List Char → List Char → List (List Char)
  | [], acc => [acc.reverse]
  | c :: rest, acc =>
    if c = '\n' then acc.reverse :: skipNlRun rest
    else splitNlAux rest (c :: acc)

/-- Skip the remainder of a newline run, then continue splitting. -/
def skipNlRun : List Char → List (List Char)
  | [] => [[]]
  | c :: rest =>
    if c = '\n' then skipNlRun rest
    else splitNlAux rest [c]

end

/-- `re.split(r'\n+', text)` on a string. -/
def reSplitNewlines (text : String) : List String :=
  (splitNlAux text.toList []).map String.mk

mutual

/-- Number of maximal `\n` runs in the text. -/
def countNlRuns : List Char → Nat
  | [] => 0
  | c :: rest => if c = '\n' then 1 + countNlAfterRun rest else countNlRuns rest

def countNlAfterRun : List Char → Nat
  | [] => 0
  | c :: rest => if c = '\n' then countNlAfterRun rest else countNlRuns rest

end

/-- `segment_text_to_paragraphs`: split on newline runs, strip each piece, and
keep the non-empty pieces that are not the placeholder glyph. -/
def segment_text_to_paragraphs (text : String) : List String :=
  (reSplitNewlines text).filterMap fun para =>
    let s := pyStripS para
    if s ≠ "" ∧ s ≠ "◇" then some s else none

/-! ## `get_online_translation` (src/main.py lines 118-177)

The deep-translator backend is an oracle mapping the attempt index to either a
returned string (`ok`, with `ok ""` standing for a falsy/empty result) or a
raised exception carrying its message (`err`).  `time.sleep` durations are
recorded in a list; the function's call count is recorded so that "no provider
call" claims are expressible. -/

inductive TranslateOutcome where
  | ok (text : String)
  | err (msg : String)
  deriving DecidableEq

/-- Result of one gloss resolution: the returned string, the number of
provider calls made, and the sleep durations taken between attempts. -/
structure GlossCall where
  result : String
  calls : Nat
  sleeps : List Rat
  deriving DecidableEq

def ONLINE_TRANSLATION_MAX_RETRIES : Nat := 2

def ONLINE_TRANSLATION_BASE_DELAY : Rat := 3 / 10

def ONLINE_TRANSLATION_RATE_LIMIT_MULTIPLIER : Rat := 4

/-- Rate-limit classification by inspecting the lowercased error text. -/
def isRateLimitMsg (msg : String) : Bool :=
  pyContains (pyLower msg) "429" ||
  pyContains (pyLower msg) "too many requests" ||
  pyContains (pyLower msg) "rate limit"

/-- `is_likely_chinese`: any CJK Unified Ideograph in the stripped segment. -/
def is_likely_chinese (segment : String) : Bool :=
  (pyStrip segment.toList).any isCJKChar

/-- The `for attempt in range(MAX_RETRIES + 1)` retry loop.  A successful
non-empty result is returned as-is (the identical-to-source case only logs);
an empty result or an exception sleeps and retries while attempts remain,
with a longer backoff for rate-limit-flavoured errors.  The final iteration
always returns, so the `"Translation Failed (Loop End)"` fall-through of the
source is unreachable and does not appear here. -/
def glossAttempts (tr : Nat → TranslateOutcome) (attempt : Nat) : GlossCall :=
  match tr attempt with
  | .ok t =>
    if t ≠ "" then ⟨t, 1, []⟩
    else if h : attempt < ONLINE_TRANSLATION_MAX_RETRIES then
      let r := glossAttempts tr (attempt + 1)
      ⟨r.result, r.calls + 1,
        ONLINE_TRANSLATION_BASE_DELAY * ((attempt : Rat) + 1) :: r.sleeps⟩
    else ⟨"Translation Failed (Empty)", 1, []⟩
  | .err msg =>
    if isRateLimitMsg msg then
      if h : attempt < ONLINE_TRANSLATION_MAX_RETRIES then
        let r := glossAttempts tr (attempt + 1)
        ⟨r.result, r.calls + 1,
          ONLINE_TRANSLATION_BASE_DELAY * ONLINE_TRANSLATION_RATE_LIMIT_MULTIPLIER *
            ((attempt : Rat) + 1) :: r.sleeps⟩
      else ⟨"Translation Failed (Rate Limit)", 1, []⟩
    else if h : attempt < ONLINE_TRANSLATION_MAX_RETRIES then
      let r := glossAttempts tr (attempt + 1)
      ⟨r.result, r.calls + 1,
        ONLINE_TRANSLATION_BASE_DELAY * ((attempt : Rat) + 1) :: r.sleeps⟩
    else ⟨"Translation Failed (Max Retries)", 1, []⟩
termination_by ONLINE_TRANSLATION_MAX_RETRIES + 1 - attempt
decreasing_by all_goals omega

/-- `get_online_translation`: availability guard, the three pre-filters, then
the retry loop.  The embedding is total, so the resolver never raises to its
caller. -/
def get_online_translation (deepAvailable hasTranslator : Bool)
    (tr : Nat → TranslateOutcome) (segment : String) : GlossCall :=
  if !(deepAvailable && hasTranslator) then ⟨"Translator N/A", 0, []⟩
  else if segment = "" ∨ pyStripS segment = "" then ⟨" ", 0, []⟩
  else if (pyStripS segment).length ≤ 1 ∧ pyIsAlnum (pyStripS segment) = false then
    ⟨segment, 0, []⟩
  else if is_likely_chinese segment = false then ⟨segment, 0, []⟩
  else glossAttempts tr 0

/-! ## `generate_chapter_html_output` (src/main.py lines 180-226)

The annotation stream is the flattened sum type over per-segment annotation
triples and the `"PARAGRAPH_BREAK"` sentinel.  The renderer accumulates the
`html_parts` list exactly as the source appends to it; the final document is
the `"\n"`-join of the parts. -/

/-- A per-segment annotation triple `{'zh': ..., 'py': ..., 'trans': ...}`. -/
structure AnnItem where
  zh : String
  py : String
  trans : String
  deriving DecidableEq

inductive StreamItem where
  | ann (a : AnnItem)
  | brk
  deriving DecidableEq

/-- One `<td>` part: `f"<td>{seg if seg.strip() else '&nbsp;'}</td>"`. -/
def cellTd (seg : String) : String :=
  "<td>" ++ (if pyStripS seg ≠ "" then seg else "&nbsp;") ++ "</td>"

/-- The parts appended for one emitted paragraph block, in source order. -/
def blockParts (bz bp bt : List String) : List String :=
  ["<div class=\x27segment-block\x27><table class=\x27chapter-table\x27>",
   "<tr class=\x27chinese-row\x27>"] ++
  bz.map cellTd ++
  ["</tr><tr class=\x27pinyin-row\x27>"] ++
  bp.map cellTd ++
  ["</tr><tr class=\x27translation-row\x27>"] ++
  bt.map cellTd ++
  ["</tr></table></div>"]

/-- The fixed document head parts (doctype, title, style, `<h1>`). -/
def headerParts (chapter_title : String) : List String :=
  ["<!DOCTYPE html><html lang=\x27en\x27><head><meta charset=\x27UTF-8\x27>",
   "<title>" ++ chapter_title ++ "</title><style>",
   "body \x7b font-family: Arial, \x27Microsoft YaHei\x27, \x27SimSun\x27, sans-serif; margin: 20px; line-height: 1.7; background-color: #f8f9fa; color: #212529; \x7d",
   "h1 \x7b text-align: center; color: #343a40; margin-bottom: 30px; font-weight: 300; \x7d",
   ".segment-block \x7b margin-bottom: 20px; padding: 12px; background-color: #ffffff; border: 1px solid #dee2e6; border-radius: .25rem; box-shadow: 0 1px 3px rgba(0,0,0,.05); overflow-x: auto; \x7d",
   ".chapter-table \x7b width: 100%; border-collapse: collapse; table-layout: auto; \x7d",
   ".chapter-table td \x7b padding: 8px 10px; text-align: left; vertical-align: top; word-break: break-word; \x7d",
   ".chinese-row td \x7b font-size: 1.4em; color: #2c3e50; padding-bottom: 5px; \x7d",
   ".pinyin-row td \x7b color: #2980b9; font-size: 0.95em; padding-bottom: 5px; border-bottom: 1px dashed #e0e0e0; \x7d",
   ".translation-row td \x7b color: #495057; font-style: italic; font-size: 0.9em; line-height: 1.4; \x7d",
   "td:empty::after \x7b content: \x27\\00a0\x27; \x7d",
   "</style></head><body>",
   "<h1>" ++ chapter_title ++ "</h1>"]

/-- Renderer loop state: the three parallel buffers and the parts list. -/
structure RState where
  zh : List String
  py : List String
  tr : List String
  parts : List String
  deriving DecidableEq

/-- One step of the renderer loop: a break flushes non-empty buffers into a
block and resets them together; an annotation appends one entry to each of
the three buffers. -/
def renderStep (σ : RState) : StreamItem → RState
  | .brk =>
    if σ.zh = [] then σ
    else ⟨[], [], [], σ.parts ++ blockParts σ.zh σ.py σ.tr⟩
  | .ann a => ⟨σ.zh ++ [a.zh], σ.py ++ [a.py], σ.tr ++ [a.trans], σ.parts⟩

/-- The `html_parts` list produced by `generate_chapter_html_output`:
header, the loop over the stream, the final flush of non-empty buffers, and
the closing tag. -/
def generate_chapter_html_output_parts (annotated_chapter_data : List StreamItem)
    (chapter_title : String) : List String :=
  let σ := annotated_chapter_data.foldl renderStep ⟨[], [], [], headerParts chapter_title⟩
  (if σ.zh = [] then σ.parts else σ.parts ++ blockParts σ.zh σ.py σ.tr) ++
    ["</body></html>"]

/-- `generate_chapter_html_output`: the `"\n"`-joined document. -/
def generate_chapter_html_output (annotated_chapter_data : List StreamItem)
    (chapter_title : String) : String :=
  String.intercalate "\n" (generate_chapter_html_output_parts annotated_chapter_data chapter_title)

/-- Observation of the renderer used in the statements: the sequence of
(original, phonetic, gloss) buffer triples at each emitted block. -/
structure Block where
  zh : List String
  py : List String
  tr : List String
  deriving DecidableEq

def blocksStep (st : List Block × Block) : StreamItem → List Block × Block
  | .brk => if st.2.zh = [] then st else (st.1 ++ [st.2], ⟨[], [], []⟩)
  | .ann a => (st.1, ⟨st.2.zh ++ [a.zh], st.2.py ++ [a.py], st.2.tr ++ [a.trans]⟩)

/-- The blocks the renderer emits for a stream, including the final flush. -/
def renderBlocks (stream : List StreamItem) : List Block :=
  let st := stream.foldl blocksStep ([], ⟨[], [], []⟩)
  if st.2.zh = [] then st.1 else st.1 ++ [st.2]

/-! ## Pipeline orchestration (src/main.py lines 229-373)

The file system is an association list from path to contents (later entries
shadowed by earlier ones; removal drops every entry of the path).  The
tokenizer, the pinyin transcriber (with its internal error containment) and
the per-page text extraction (`read_and_concatenate_chapter_text`'s
per-page body, whose read/parse failures yield no text) are oracles. -/

abbrev FS := List (String × String)

def fsLookup (fs : FS) (p : String) : Option String :=
  (fs.find? fun e => e.1 = p).map (·.2)

def fsWrite (fs : FS) (p v : String) : FS := (p, v) :: fs

def fsRemove (fs : FS) (p : String) : FS := fs.filter fun e => e.1 ≠ p

/-- The deep-translator oracle: per stripped segment, the outcome of each
attempt. -/
abbrev Translator := String → Nat → TranslateOutcome

structure Externals where
  /-- Text extracted from one page file (`div#TextContent` paragraphs joined
  by newlines); `""` models a missing container or a read/parse error. -/
  extractPage : String → String
  /-- `jieba.cut` on one paragraph. -/
  cut : String → List String
  /-- `get_pinyin_for_segment` (error containment internal to the oracle). -/
  pinyinResult : String → String

structure PageData where
  path : String
  page_num : Nat
  deriving DecidableEq

/-- `read_and_concatenate_chapter_text`: join the non-empty per-page texts
with newlines, in page order. -/
def read_and_concatenate_chapter_text (ext : Externals) (pages : List PageData) : String :=
  String.intercalate "\n" ((pages.map fun pd => ext.extractPage pd.path).filter (· ≠ ""))

/-- Python `str.title()` after `.replace("_", " ")` (ASCII model): a letter
not preceded by a letter is uppercased, later letters of a word lowered. -/
def pyTitleAux : List Char → Bool → List Char
  | [], _ => []
  | c :: rest, prevAlpha =>
    (if isAsciiAlpha c then (if prevAlpha then lowerChar c else upperChar c) else c) ::
      pyTitleAux rest (isAsciiAlpha c)

def chapterTitle (chapter_key : String) : String :=
  String.mk (pyTitleAux (chapter_key.toList.map fun c => if c = '_' then ' ' else c) false)

/-- Annotate one paragraph: tokenize, and for each non-empty stripped segment
append one annotation (pinyin + online gloss); count provider calls. -/
def annotateParagraph (ext : Externals) (tr : Translator) (para : String) :
    List StreamItem × Nat :=
  (ext.cut para).foldl
    (fun acc seg =>
      let ss := pyStripS seg
      if ss = "" then acc
      else
        let g := get_online_translation true true (tr ss) ss
        (acc.1 ++ [.ann ⟨ss, ext.pinyinResult ss, g.result⟩], acc.2 + g.calls))
    ([], 0)

/-- The paragraph loop of `process_chapter` (lines 250-287): skip blank
paragraphs, annotate the rest, and append a `PARAGRAPH_BREAK` after each
annotated paragraph. -/
def annotateParagraphs (ext : Externals) (tr : Translator) (paras : List String) :
    List StreamItem × Nat :=
  paras.foldl
    (fun acc para =>
      if pyStripS para = "" then acc
      else
        let r := annotateParagraph ext tr para
        (acc.1 ++ r.1 ++ [.brk], acc.2 + r.2))
    ([], 0)

/-- Result of `process_chapter`: the updated file system, the returned source
page paths, the skipped flag, and (instrumentation, not part of the source's
return value) the number of provider calls made. -/
structure ChapterResult where
  fs : FS
  paths : List String
  skipped : Bool
  calls : Nat
  deriving DecidableEq

def output_filename (output_dir chapter_key : String) : String :=
  output_dir ++ "/" ++ chapter_key ++ ".html"

/-- `process_chapter`: skip if the output artifact exists; otherwise
assemble, annotate, render and write.  The write is modelled as succeeding
(the source's write-failure branch returns `([], False)` without output). -/
def process_chapter (ext : Externals) (tr : Translator) (fs : FS)
    (chapter_key : String) (pages : List PageData) (output_dir : String) : ChapterResult :=
  let out := output_filename output_dir chapter_key
  if (fsLookup fs out).isSome then ⟨fs, pages.map (·.path), true, 0⟩
  else
    let full := read_and_concatenate_chapter_text ext pages
    if pyStripS full = "" then ⟨fs, [], false, 0⟩
    else
      let paragraphs := segment_text_to_paragraphs full
      let annotated := annotateParagraphs ext tr paragraphs
      let html := generate_chapter_html_output annotated.1 (chapterTitle chapter_key)
      ⟨fsWrite fs out html, pages.map (·.path), false, annotated.2⟩

/-! ### `group_html_files` (lines 71-85) -/

/-- Append a page to its chapter bucket, keeping first-seen key order
(`defaultdict` insertion order). -/
def insertPage (groups : List (String × List PageData)) (key : String) (pd : PageData) :
    List (String × List PageData) :=
  match groups with
  | [] => [(key, [pd])]
  | (k, ps) :: rest =>
    if k = key then (k, ps ++ [pd]) :: rest
    else (k, ps) :: insertPage rest key pd

/-- Stable ascending sort by `page_num` (Python `list.sort` is stable). -/
def sortPages (ps : List PageData) : List PageData :=
  ps.insertionSort fun a b => a.page_num ≤ b.page_num

/-- One grouping step: a parseable filename joins the bucket of its chapter
key; an unparseable one is dropped with a warning. -/
def groupStep (acc : List (String × List PageData)) (f : String) :
    List (String × List PageData) :=
  match parse_filename f with
  | some (v, c, n, _) => insertPage acc ("volume" ++ v ++ "_chapter" ++ c) ⟨f, n⟩
  | none => acc

/-- `group_html_files`: `files` stands for the glob listing of the source
directory; keep `.html` names, parse each, group by chapter key, and sort
each group by page number. -/
def group_html_files (files : List String) : List (String × List PageData) :=
  let html_files := files.filter fun f => ".html".toList.isSuffixOf f.toList
  (html_files.foldl groupStep []).map fun g => (g.1, sortPages g.2)

/-- All page paths across a list of chapter groups, in order. -/
def pagePathsOf (groups : List (String × List PageData)) : List String :=
  groups.flatMap fun g => g.2.map (·.path)

/-! ### `main` (lines 304-373) -/

def OUTPUT_DIRECTORY : String := "output"

def DELETE_SOURCE_FILES_AFTER_PROCESSING : Bool := true

inductive Outcome where
  | processed
  | skippedCh
  | erroredCh
  deriving DecidableEq

/-- Instrumentation: per examined chapter, its key, its group's page paths
and how the loop classified it. -/
structure ChapterRecord where
  key : String
  pagePaths : List String
  outcome : Outcome
  deriving DecidableEq

structure LoopState where
  fs : FS
  processed : Nat
  skipped : Nat
  errored : Nat
  allProcessed : List String
  calls : Nat
  records : List ChapterRecord
  deriving DecidableEq

/-- One iteration of the per-chapter loop of `main` (lines 334-354).  Empty
groups are skipped silently; with no translator the chapter is counted as
errored without being processed; otherwise `process_chapter` runs and the
counters are updated, extending `all_processed_source_files` only in the
non-skipped successful branch. -/
def mainStep (ext : Externals) (tro : Option Translator) (output_dir : String)
    (st : LoopState) (g : String × List PageData) : LoopState :=
  if g.2 = [] then st
  else
    match tro with
    | none =>
      { st with errored := st.errored + 1,
                records := st.records ++ [⟨g.1, g.2.map (·.path), .erroredCh⟩] }
    | some tr =>
      let r := process_chapter ext tr st.fs g.1 g.2 output_dir
      if r.skipped then
        { st with fs := r.fs, skipped := st.skipped + 1, calls := st.calls + r.calls,
                  records := st.records ++ [⟨g.1, g.2.map (·.path), .skippedCh⟩] }
      else if r.paths ≠ [] then
        { st with fs := r.fs, processed := st.processed + 1,
                  allProcessed := st.allProcessed ++ r.paths,
                  calls := st.calls + r.calls,
                  records := st.records ++ [⟨g.1, g.2.map (·.path), .processed⟩] }
      else
        { st with fs := r.fs, errored := st.errored + 1, calls := st.calls + r.calls,
                  records := st.records ++ [⟨g.1, g.2.map (·.path), .erroredCh⟩] }

/-- Result of a `main` run.  `fsBeforeCleanup`, `providerCalls`,
`loopReached` and `records` are instrumentation making the claims'
observables explicit; the counters mirror the source's summary counters. -/
structure MainResult where
  fs : FS
  fsBeforeCleanup : FS
  processed : Nat
  skipped : Nat
  errored : Nat
  providerCalls : Nat
  loopReached : Bool
  records : List ChapterRecord
  deriving DecidableEq

/-- `main`: abort if the deep-translator library is missing; group the source
files (an empty grouping returns early); run the per-chapter loop (a `none`
translator models a failed `GoogleTranslator` initialization, whose abort is
commented out in the source); finally delete the accumulated source files
when cleanup is enabled.  `jieba` dictionary setup, logging and the
`os.makedirs` call have no modelled effect. -/
def main (deepAvailable : Bool) (tro : Option Translator) (ext : Externals)
    (sourceFiles : List String) (fs : FS) : MainResult :=
  if !deepAvailable then ⟨fs, fs, 0, 0, 0, 0, false, []⟩
  else
    let groups := group_html_files sourceFiles
    if groups = [] then ⟨fs, fs, 0, 0, 0, 0, false, []⟩
    else
      let st := groups.foldl (mainStep ext tro OUTPUT_DIRECTORY) ⟨fs, 0, 0, 0, [], 0, []⟩
      let fs2 :=
        if DELETE_SOURCE_FILES_AFTER_PROCESSING && st.allProcessed ≠ [] then
          st.allProcessed.foldl fsRemove st.fs
        else st.fs
      ⟨fs2, st.fs, st.processed, st.skipped, st.errored, st.calls, true, st.records⟩

/-! ## Lemmas and claim theorems -/

lemma stringMk_eq_empty_iff (l : List Char) : String.mk l = "" ↔ l = [] := by
  constructor
  · intro h
    have : (String.mk l).data = ("" : String).data := by rw [h]
    simpa using this
  · intro h; rw [h]

lemma strip_ne_of_cjk {segment : String} (h : is_likely_chinese segment = true) :
    pyStripS segment ≠ "" := by
  unfold is_likely_chinese at h
  rcases List.any_eq_true.mp h with ⟨c, hc, _⟩
  intro he
  rw [pyStripS, stringMk_eq_empty_iff] at he
  rw [he] at hc
  exact (List.not_mem_nil c) hc

lemma alnumChar_of_cjk {c : Char} (h : isCJKChar c = true) : pyIsAlnumChar c = true := by
  simp [pyIsAlnumChar, h]

lemma alnum_of_cjk_short {segment : String} (h : is_likely_chinese segment = true)
    (hlen : (pyStripS segment).length ≤ 1) : pyIsAlnum (pyStripS segment) = true := by
  unfold is_likely_chinese at h
  rcases List.any_eq_true.mp h with ⟨c, hc, hcjk⟩
  have hl : (pyStripS segment).toList = pyStrip segment.toList := rfl
  have hlen' : (pyStrip segment.toList).length ≤ 1 := by
    simpa [pyStripS, String.length] using hlen
  have hne : pyStrip segment.toList ≠ [] := by
    intro he; rw [he] at hc; exact (List.not_mem_nil c) hc
  have h1 : (pyStrip segment.toList).length = 1 := by
    have := List.length_pos.mpr hne
    omega
  rcases List.length_eq_one.mp h1 with ⟨a, ha⟩
  rw [ha] at hc
  have hca : c = a := by simpa using hc
  subst hca
  have hd : (pyStripS segment).data = [c] := ha
  simp [pyIsAlnum, hd, alnumChar_of_cjk hcjk]

/-- **C4**: the gloss resolver's pre-filters short-circuit with no provider
call: empty or whitespace-only input yields the single-space placeholder; a
non-empty trimmed input of length at most one that is not alphanumeric is
returned unchanged; an input passing those two filters but containing no CJK
Unified Ideograph is returned unchanged.  In each case the call count is 0
and no sleeps are taken. -/
theorem gloss_resolver_short_circuits (tr : Nat → TranslateOutcome) (segment : String) :
    (pyStripS segment = "" →
      get_online_translation true true tr segment = ⟨" ", 0, []⟩) ∧
    (pyStripS segment ≠ "" → (pyStripS segment).length ≤ 1 →
      pyIsAlnum (pyStripS segment) = false →
      get_online_translation true true tr segment = ⟨segment, 0, []⟩) ∧
    (pyStripS segment ≠ "" →
      ¬((pyStripS segment).length ≤ 1 ∧ pyIsAlnum (pyStripS segment) = false) →
      is_likely_chinese segment = false →
      get_online_translation true true tr segment = ⟨segment, 0, []⟩) := by
  refine ⟨?_, ?_, ?_⟩
  · intro h1
    simp [get_online_translation, h1]
  · intro h1 h2 h3
    have hne : ¬(segment = "" ∨ pyStripS segment = "") := by
      rintro (h | h)
      · exact h1 (by rw [h]; rfl)
      · exact h1 h
    simp [get_online_translation, hne, h2, h3]
  · intro h1 h2 h3
    have hne : ¬(segment = "" ∨ pyStripS segment = "") := by
      rintro (h | h)
      · exact h1 (by rw [h]; rfl)
      · exact h1 h
    simp only [get_online_translation]
    rw [if_neg (by simp), if_neg hne, if_neg h2, if_pos h3]

/-- **C4 witness**: the three short-circuits at concrete inputs (whitespace,
a lone comma, a CJK-free Latin word). -/
theorem gloss_resolver_short_circuits_witness :
    (pyStripS " " = "" ∧
      get_online_translation true true (fun _ => .ok "hi") " " = ⟨" ", 0, []⟩) ∧
    (pyStripS "," ≠ "" ∧
      get_online_translation true true (fun _ => .ok "hi") "," = ⟨",", 0, []⟩) ∧
    (is_likely_chinese "abc" = false ∧
      get_online_translation true true (fun _ => .ok "hi") "abc" = ⟨"abc", 0, []⟩) :=
  ⟨⟨by decide, (gloss_resolver_short_circuits (fun _ => .ok "hi") " ").1 (by decide)⟩,
   ⟨by decide,
    (gloss_resolver_short_circuits (fun _ => .ok "hi") ",").2.1 (by decide) (by decide) (by decide)⟩,
   ⟨by decide,
    (gloss_resolver_short_circuits (fun _ => .ok "hi") "abc").2.2 (by decide) (by decide)
      (by decide)⟩⟩

/-- **C3**: for a CJK segment whose translate call raises a rate-limit
flavoured error on every attempt, the resolver returns the rate-limit failure
marker after exactly `MAX_RETRIES + 1` provider calls, sleeping
`BASE_DELAY * RATE_LIMIT_MULTIPLIER * (attempt + 1)` between consecutive
attempts; being a total function, it never raises to its caller. -/
theorem gloss_rate_limit_exhaustion (tr : Nat → TranslateOutcome) (segment : String)
    (msgs : Nat → String)
    (hcjk : is_likely_chinese segment = true)
    (herr : ∀ i, tr i = .err (msgs i))
    (hrl : ∀ i, isRateLimitMsg (msgs i) = true) :
    get_online_translation true true tr segment =
      ⟨"Translation Failed (Rate Limit)", ONLINE_TRANSLATION_MAX_RETRIES + 1,
        [ONLINE_TRANSLATION_BASE_DELAY * ONLINE_TRANSLATION_RATE_LIMIT_MULTIPLIER * 1,
         ONLINE_TRANSLATION_BASE_DELAY * ONLINE_TRANSLATION_RATE_LIMIT_MULTIPLIER * 2]⟩ := by
  have h1 : pyStripS segment ≠ "" := strip_ne_of_cjk hcjk
  have hne : ¬(segment = "" ∨ pyStripS segment = "") := by
    rintro (h | h)
    · exact h1 (by rw [h]; rfl)
    · exact h1 h
  have h2 : ¬((pyStripS segment).length ≤ 1 ∧ pyIsAlnum (pyStripS segment) = false) := by
    rintro ⟨hl, hal⟩
    rw [alnum_of_cjk_short hcjk hl] at hal
    exact absurd hal (by simp)
  have e2 : glossAttempts tr 2 = ⟨"Translation Failed (Rate Limit)", 1, []⟩ := by
    rw [glossAttempts, herr 2]
    simp [hrl 2, ONLINE_TRANSLATION_MAX_RETRIES]
  have e1 : glossAttempts tr 1 =
      ⟨"Translation Failed (Rate Limit)", 2,
        [ONLINE_TRANSLATION_BASE_DELAY * ONLINE_TRANSLATION_RATE_LIMIT_MULTIPLIER * 2]⟩ := by
    rw [glossAttempts, herr 1]
    simp [hrl 1, ONLINE_TRANSLATION_MAX_RETRIES, e2]
    try norm_num
  have e0 : glossAttempts tr 0 =
      ⟨"Translation Failed (Rate Limit)", 3,
        [ONLINE_TRANSLATION_BASE_DELAY * ONLINE_TRANSLATION_RATE_LIMIT_MULTIPLIER * 1,
         ONLINE_TRANSLATION_BASE_DELAY * ONLINE_TRANSLATION_RATE_LIMIT_MULTIPLIER * 2]⟩ := by
    rw [glossAttempts, herr 0]
    simp [hrl 0, ONLINE_TRANSLATION_MAX_RETRIES, e1]
    try norm_num
  simp only [get_online_translation]
  rw [if_neg (by simp), if_neg hne, if_neg h2, if_neg (by simp [hcjk]), e0]
  rfl

/-- **C3 witness**: a concrete CJK segment against a provider raising
`"HTTP 429"` on every attempt. -/
theorem gloss_rate_limit_exhaustion_witness :
    is_likely_chinese "你" = true ∧
    get_online_translation true true (fun _ => .err "HTTP 429") "你" =
      ⟨"Translation Failed (Rate Limit)", ONLINE_TRANSLATION_MAX_RETRIES + 1,
        [ONLINE_TRANSLATION_BASE_DELAY * ONLINE_TRANSLATION_RATE_LIMIT_MULTIPLIER * 1,
         ONLINE_TRANSLATION_BASE_DELAY * ONLINE_TRANSLATION_RATE_LIMIT_MULTIPLIER * 2]⟩ :=
  ⟨by decide,
   gloss_rate_limit_exhaustion (fun _ => .err "HTTP 429") "你" (fun _ => "HTTP 429")
     (by decide) (fun _ => rfl)
     (fun _ => (by decide : isRateLimitMsg "HTTP 429" = true))⟩

/-! ### Filename parsing lemmas -/

lemma takeDigits_fst_digits : ∀ cs : List Char, ((takeDigits cs).1).all pyIsDigit = true := by
  intro cs
  induction cs with
  | nil => rfl
  | cons c rest ih =>
    by_cases h : pyIsDigit c = true
    · simp [takeDigits, h, ih]
    · simp [takeDigits, h]

/-- The source's regex matcher is the spec pattern matched as a prefix. -/
lemma regexCoreMatch_eq_spec (cs : List Char) :
    regexCoreMatch cs = specPageMatch false cs := by
  unfold regexCoreMatch specPageMatch specPageWalk
  repeat' split
  all_goals simp

lemma takeDigits_eq_all {cs ds r : List Char} (h : takeDigits cs = (ds, r)) :
    ds.all pyIsDigit = true := by
  have hd := takeDigits_fst_digits cs
  rw [h] at hd
  exact hd

lemma specPageWalk_p_digits {cs : List Char} {v c p : String} {rest : List Char}
    (h : specPageWalk cs = some ((v, c, p), rest)) :
    p.toList.isEmpty = false ∧ p.toList.all pyIsDigit = true := by
  unfold specPageWalk at h
  repeat' split at h
  all_goals try simp_all
  rename_i hmv htdv hnev hmc htdc hnec hmu htdp hnep
  obtain ⟨⟨hv, hc, hp⟩, hrest⟩ := h
  subst hp
  refine ⟨by simpa using hnep, ?_⟩
  simpa using takeDigits_eq_all htdp

/-- **C10**: on every filename the regex matches, the captured page group is
a non-empty digit run, so Python `int` conversion always succeeds: the
warn-and-drop branch is unreachable and a matching name is never
discarded. -/
theorem page_int_conversion_total (name v c p : String)
    (h : regexCoreMatch (basename name).toList = some (v, c, p)) :
    ∃ n, pyIntOfDigits p = some n ∧ parse_filename name = some (v, c, n, p) := by
  rw [regexCoreMatch_eq_spec] at h
  unfold specPageMatch at h
  cases hw : specPageWalk (basename name).toList with
  | none => rw [hw] at h; exact absurd h (by simp)
  | some t =>
    rw [hw] at h
    obtain ⟨⟨v', c', p'⟩, rest⟩ := t
    have hvcp : v' = v ∧ c' = c ∧ p' = p := by
      simpa using h
    rw [hvcp.1, hvcp.2.1, hvcp.2.2] at hw
    obtain ⟨hne, hdig⟩ := specPageWalk_p_digits hw
    have hne' : ¬p.data = [] := by
      intro hd
      have ht : p.toList.isEmpty = true := by simp [String.toList, hd]
      rw [ht] at hne
      exact absurd hne (by simp)
    have hdig' : ∀ x ∈ p.data, pyIsDigit x = true := by simpa using hdig
    have hint : pyIntOfDigits p = some (digitsVal p.toList) := by
      simp [pyIntOfDigits]
      exact ⟨hne', hdig'⟩
    refine ⟨digitsVal p.toList, hint, ?_⟩
    unfold parse_filename
    rw [regexCoreMatch_eq_spec]
    unfold specPageMatch
    rw [hw]
    simp [hint]

/-- **C10 witness**: a concrete matching filename. -/
theorem page_int_conversion_total_witness :
    regexCoreMatch (basename "volume1_chapter2_3.html").toList = some ("1", "2", "3") ∧
    (∃ n, pyIntOfDigits "3" = some n ∧
      parse_filename "volume1_chapter2_3.html" = some ("1", "2", n, "3")) :=
  ⟨by decide, page_int_conversion_total "volume1_chapter2_3.html" "1" "2" "3" (by decide)⟩

/-- **C8 counterexample**: `volume1_chapter2_3.htmlx` does not match the page
pattern as a whole-filename shape, yet `parse_filename` (which uses
`re.match`'s prefix semantics) still returns a parse for it — refuting the
claim that every non-matching filename yields no result. -/
theorem parse_filename_nonmatching_counterexample :
    specPageMatch true "volume1_chapter2_3.htmlx".toList = none ∧
    parse_filename "volume1_chapter2_3.htmlx" = some ("1", "2", 3, "3") := by
  constructor <;> decide

/-- **C8 amended**: `parse_filename` realises the page pattern matched as a
*prefix* of the basename (Python `re.match` semantics): it returns exactly
the captured volume and chapter strings and the page as integer whenever the
pattern matches a prefix, and no result otherwise; every whole-filename
(anchored) match is such a prefix match with the same captures. -/
theorem parse_filename_prefix_semantics :
    (∀ name : String,
      parse_filename name =
        (specPageMatch false (basename name).toList).bind fun t =>
          (pyIntOfDigits t.2.2).map fun n => (t.1, t.2.1, n, t.2.2)) ∧
    (∀ (name : String) (x : String × String × String),
      specPageMatch true (basename name).toList = some x →
      specPageMatch false (basename name).toList = some x) := by
  constructor
  · intro name
    unfold parse_filename
    rw [regexCoreMatch_eq_spec]
    cases h : specPageMatch false (basename name).toList with
    | none => rfl
    | some t =>
      obtain ⟨v, c, p⟩ := t
      cases h2 : pyIntOfDigits p <;> simp [h2]
  · intro name x h
    unfold specPageMatch at h ⊢
    cases hw : specPageWalk (basename name).toList with
    | none => rw [hw] at h; exact absurd h (by simp)
    | some t =>
      rw [hw] at h
      simp at h ⊢
      exact h.2

/-- **C8 amended witness**: a concrete anchored match (mixed case, leading
zeros preserved) parses with its captures exactly as written. -/
theorem parse_filename_prefix_semantics_witness :
    specPageMatch true (basename "VOLUME12_Chapter03_7.HTML").toList = some ("12", "03", "7") ∧
    specPageMatch false (basename "VOLUME12_Chapter03_7.HTML").toList = some ("12", "03", "7") ∧
    parse_filename "VOLUME12_Chapter03_7.HTML" = some ("12", "03", 7, "7") :=
  ⟨by decide,
   parse_filename_prefix_semantics.2 "VOLUME12_Chapter03_7.HTML" ("12", "03", "7") (by decide),
   by decide⟩

/-! ### Paragraph splitting lemmas -/

lemma splitNl_skipNl_length : ∀ cs : List Char,
    (∀ acc, (splitNlAux cs acc).length = countNlRuns cs + 1) ∧
    (skipNlRun cs).length = countNlAfterRun cs + 1 := by
  intro cs
  induction cs with
  | nil =>
    constructor
    · intro acc; simp [splitNlAux, countNlRuns]
    · simp [skipNlRun, countNlAfterRun]
  | cons c rest ih =>
    constructor
    · intro acc
      by_cases h : c = '\n'
      · simp [splitNlAux, h, countNlRuns, ih.2]
        omega
      · simp [splitNlAux, h, countNlRuns, ih.1]
    · by_cases h : c = '\n'
      · simp [skipNlRun, h, countNlAfterRun, ih.2]
      · simp [skipNlRun, h, countNlAfterRun, ih.1]

lemma filterMap_length_of_all_some {α β : Type} (f : α → Option β) :
    ∀ l : List α, (∀ a ∈ l, (f a).isSome) → (l.filterMap f).length = l.length := by
  intro l
  induction l with
  | nil => intro _; rfl
  | cons a l ih =>
    intro h
    rcases Option.isSome_iff_exists.mp (h a (by simp)) with ⟨b, hb⟩
    simp [List.filterMap_cons, hb, ih fun x hx => h x (by simp [hx])]

/-- **C6**: when every split piece of the chapter text strips to a genuine
paragraph (non-empty and not the placeholder glyph), re-splitting yields
exactly `N + 1` paragraphs for `N` newline runs; and in general every
produced paragraph is non-empty and never the placeholder-only `"◇"`. -/
theorem paragraph_roundtrip (text : String) :
    ((∀ para ∈ reSplitNewlines text, pyStripS para ≠ "" ∧ pyStripS para ≠ "◇") →
      (segment_text_to_paragraphs text).length = countNlRuns text.toList + 1) ∧
    (∀ p ∈ segment_text_to_paragraphs text, p ≠ "" ∧ p ≠ "◇") := by
  constructor
  · intro h
    unfold segment_text_to_paragraphs
    rw [filterMap_length_of_all_some _ _ ?hall]
    case hall =>
      intro para hpara
      obtain ⟨h1, h2⟩ := h para hpara
      simp only [ne_eq]
      rw [if_pos ⟨h1, h2⟩]
      rfl
    rw [reSplitNewlines, List.length_map, (splitNl_skipNl_length text.toList).1]
  · intro p hp
    unfold segment_text_to_paragraphs at hp
    rcases List.mem_filterMap.mp hp with ⟨a, _, hfa⟩
    simp only [ne_eq] at hfa
    by_cases hcond : ¬pyStripS a = "" ∧ ¬pyStripS a = "◇"
    · rw [if_pos hcond] at hfa
      have hpa : pyStripS a = p := by simpa using hfa
      rw [← hpa]
      exact hcond
    · rw [if_neg hcond] at hfa
      cases hfa

/-- **C6 witness**: three genuine paragraphs separated by two newline runs. -/
theorem paragraph_roundtrip_witness :
    (∀ para ∈ reSplitNewlines "你好\n\n世界\n第三", pyStripS para ≠ "" ∧ pyStripS para ≠ "◇") ∧
    (segment_text_to_paragraphs "你好\n\n世界\n第三").length =
      countNlRuns "你好\n\n世界\n第三".toList + 1 :=
  ⟨by decide, (paragraph_roundtrip "你好\n\n世界\n第三").1 (by decide)⟩

/-! ### Renderer lemmas -/

lemma foldl_renderStep_replicate_brk :
    ∀ (n : Nat) (σ : RState), σ.zh = [] →
      (List.replicate n StreamItem.brk).foldl renderStep σ = σ := by
  intro n
  induction n with
  | zero => intro σ _; rfl
  | succ n ih =>
    intro σ h
    rw [List.replicate_succ, List.foldl_cons]
    have hstep : renderStep σ .brk = σ := by
      simp [renderStep, h]
    rw [hstep, ih σ h]

/-- **C7**: a stream ending in an annotation (no trailing break) renders
identically to the same stream with an explicit trailing break — the final
accumulated block is emitted; and a stream of only `ParagraphBreak` markers
emits zero blocks, producing just the document head and the closing tag. -/
theorem renderer_boundary :
    (∀ (s : List StreamItem) (a : AnnItem) (title : String),
      generate_chapter_html_output (s ++ [.ann a]) title =
        generate_chapter_html_output (s ++ [.ann a, .brk]) title) ∧
    (∀ (n : Nat) (title : String),
      generate_chapter_html_output (List.replicate n .brk) title =
        String.intercalate "\n" (headerParts title ++ ["</body></html>"])) := by
  constructor
  · intro s a title
    unfold generate_chapter_html_output generate_chapter_html_output_parts
    rw [show s ++ [StreamItem.ann a, StreamItem.brk] =
          (s ++ [StreamItem.ann a]) ++ [StreamItem.brk] by simp]
    simp only [List.foldl_append]
    simp [renderStep]
  · intro n title
    unfold generate_chapter_html_output generate_chapter_html_output_parts
    rw [foldl_renderStep_replicate_brk n _ rfl]
    simp

/-! ### Chapter skip and idempotence -/

lemma fsLookup_fsWrite (fs : FS) (p v : String) : fsLookup (fsWrite fs p v) p = some v := by
  unfold fsLookup fsWrite
  rw [List.find?_cons_of_pos _ (by simp)]
  rfl

/-- **C5**: a chapter whose output artifact already exists is reported
skipped with its page paths, with no write (the file system is returned
unchanged) and no annotation work (zero provider calls); consequently a
second run of the chapter pipeline on the same input/output pair leaves the
file system of the first run unchanged. -/
theorem chapter_skip_idempotent (ext : Externals) (tr : Translator) (fs : FS)
    (chapter_key : String) (pages : List PageData) (output_dir : String) :
    ((fsLookup fs (output_filename output_dir chapter_key)).isSome →
      process_chapter ext tr fs chapter_key pages output_dir =
        ⟨fs, pages.map (·.path), true, 0⟩) ∧
    ((process_chapter ext tr (process_chapter ext tr fs chapter_key pages output_dir).fs
        chapter_key pages output_dir).fs =
      (process_chapter ext tr fs chapter_key pages output_dir).fs) := by
  have hskip : ∀ fs' : FS,
      (fsLookup fs' (output_filename output_dir chapter_key)).isSome →
      process_chapter ext tr fs' chapter_key pages output_dir =
        ⟨fs', pages.map (·.path), true, 0⟩ := by
    intro fs' h
    unfold process_chapter
    rw [if_pos h]
  refine ⟨hskip fs, ?_⟩
  by_cases h : (fsLookup fs (output_filename output_dir chapter_key)).isSome
  · rw [hskip fs h]
    dsimp only
    rw [hskip fs h]
  · unfold process_chapter
    rw [if_neg h]
    by_cases hfull : pyStripS (read_and_concatenate_chapter_text ext pages) = ""
    · rw [if_pos hfull]
      dsimp only
      rw [if_neg h, if_pos hfull]
    · rw [if_neg hfull]
      dsimp only
      rw [if_pos (by rw [fsLookup_fsWrite]; rfl)]

/-- **C5 witness**: a pre-existing output artifact is skipped unchanged. -/
theorem chapter_skip_idempotent_witness :
    (fsLookup [("output/volume1_chapter1.html", "OLD")]
        (output_filename "output" "volume1_chapter1")).isSome = true ∧
    process_chapter ⟨fun _ => "你", fun s => [s], fun _ => "p"⟩ (fun _ _ => .ok "g")
        [("output/volume1_chapter1.html", "OLD")] "volume1_chapter1"
        [⟨"data/volume1_chapter1_1.html", 1⟩] "output" =
      ⟨[("output/volume1_chapter1.html", "OLD")], ["data/volume1_chapter1_1.html"], true, 0⟩ :=
  ⟨by decide,
   (chapter_skip_idempotent ⟨fun _ => "你", fun s => [s], fun _ => "p"⟩ (fun _ _ => .ok "g")
      [("output/volume1_chapter1.html", "OLD")] "volume1_chapter1"
      [⟨"data/volume1_chapter1_1.html", 1⟩] "output").1 (by decide)⟩

/-! ### Renderer buffer parallelism -/

lemma blocksStep_acc : ∀ (s : List StreamItem) (B : List Block) (c : Block),
    s.foldl blocksStep (B, c) =
      (B ++ (s.foldl blocksStep ([], c)).1, (s.foldl blocksStep ([], c)).2) := by
  intro s
  induction s with
  | nil => intro B c; simp
  | cons item s ih =>
    intro B c
    rw [List.foldl_cons, List.foldl_cons]
    cases item with
    | ann a =>
      rw [show blocksStep (B, c) (.ann a) =
            (B, ⟨c.zh ++ [a.zh], c.py ++ [a.py], c.tr ++ [a.trans]⟩) from rfl,
          show blocksStep (([] : List Block), c) (.ann a) =
            (([] : List Block), ⟨c.zh ++ [a.zh], c.py ++ [a.py], c.tr ++ [a.trans]⟩) from rfl]
      exact ih B _
    | brk =>
      by_cases hc : c.zh = []
      · rw [show blocksStep (B, c) .brk = (B, c) from by simp [blocksStep, hc],
            show blocksStep (([] : List Block), c) .brk = ([], c) from by simp [blocksStep, hc]]
        exact ih B c
      · rw [show blocksStep (B, c) .brk = (B ++ [c], ⟨[], [], []⟩) from by simp [blocksStep, hc],
            show blocksStep (([] : List Block), c) .brk = ([c], ⟨[], [], []⟩) from by
              simp [blocksStep, hc]]
        rw [ih (B ++ [c]) _, ih [c] _]
        simp

lemma renderLoop_blocks : ∀ (s : List StreamItem) (bz bp bt parts : List String),
    s.foldl renderStep ⟨bz, bp, bt, parts⟩ =
      ⟨(s.foldl blocksStep ([], ⟨bz, bp, bt⟩)).2.zh,
       (s.foldl blocksStep ([], ⟨bz, bp, bt⟩)).2.py,
       (s.foldl blocksStep ([], ⟨bz, bp, bt⟩)).2.tr,
       parts ++ (s.foldl blocksStep ([], ⟨bz, bp, bt⟩)).1.flatMap
         (fun b => blockParts b.zh b.py b.tr)⟩ := by
  intro s
  induction s with
  | nil => intro bz bp bt parts; simp
  | cons item s ih =>
    intro bz bp bt parts
    rw [List.foldl_cons, List.foldl_cons]
    cases item with
    | ann a =>
      rw [show renderStep ⟨bz, bp, bt, parts⟩ (.ann a) =
            ⟨bz ++ [a.zh], bp ++ [a.py], bt ++ [a.trans], parts⟩ from rfl,
          show blocksStep (([] : List Block), ⟨bz, bp, bt⟩) (.ann a) =
            (([] : List Block), ⟨bz ++ [a.zh], bp ++ [a.py], bt ++ [a.trans]⟩) from rfl]
      exact ih _ _ _ _
    | brk =>
      by_cases hc : bz = []
      · rw [show renderStep ⟨bz, bp, bt, parts⟩ .brk = ⟨bz, bp, bt, parts⟩ from by
              simp [renderStep, hc],
            show blocksStep (([] : List Block), ⟨bz, bp, bt⟩) .brk =
              (([] : List Block), (⟨bz, bp, bt⟩ : Block)) from by simp [blocksStep, hc]]
        exact ih _ _ _ _
      · rw [show renderStep ⟨bz, bp, bt, parts⟩ .brk =
              ⟨[], [], [], parts ++ blockParts bz bp bt⟩ from by simp [renderStep, hc],
            show blocksStep (([] : List Block), ⟨bz, bp, bt⟩) .brk =
              ([(⟨bz, bp, bt⟩ : Block)], (⟨[], [], []⟩ : Block)) from by simp [blocksStep, hc]]
        rw [ih [] [] [] (parts ++ blockParts bz bp bt)]
        rw [blocksStep_acc s [⟨bz, bp, bt⟩] ⟨[], [], []⟩]
        simp

lemma blocksStep_lengths : ∀ (s : List StreamItem) (B : List Block) (c : Block),
    (∀ b ∈ B, b.zh.length = b.py.length ∧ b.py.length = b.tr.length) →
    (c.zh.length = c.py.length ∧ c.py.length = c.tr.length) →
    (∀ b ∈ (s.foldl blocksStep (B, c)).1,
      b.zh.length = b.py.length ∧ b.py.length = b.tr.length) ∧
    ((s.foldl blocksStep (B, c)).2.zh.length = (s.foldl blocksStep (B, c)).2.py.length ∧
     (s.foldl blocksStep (B, c)).2.py.length = (s.foldl blocksStep (B, c)).2.tr.length) := by
  intro s
  induction s with
  | nil => intro B c hB hc; exact ⟨hB, hc⟩
  | cons item s ih =>
    intro B c hB hc
    rw [List.foldl_cons]
    cases item with
    | ann a =>
      rw [show blocksStep (B, c) (.ann a) =
            (B, ⟨c.zh ++ [a.zh], c.py ++ [a.py], c.tr ++ [a.trans]⟩) from rfl]
      exact ih B _ hB (by simp [hc.1, hc.2])
    | brk =>
      by_cases hcz : c.zh = []
      · rw [show blocksStep (B, c) .brk = (B, c) from by simp [blocksStep, hcz]]
        exact ih B c hB hc
      · rw [show blocksStep (B, c) .brk = (B ++ [c], ⟨[], [], []⟩) from by simp [blocksStep, hcz]]
        refine ih _ _ ?_ (by simp)
        intro b hb
        rcases List.mem_append.mp hb with hbB | hbc
        · exact hB b hbB
        · have : b = c := by simpa using hbc
          rw [this]
          exact hc

/-- **C9**: the rendered parts decompose into the document head, one block
per emitted buffer triple, and the closing tag; and in every emitted block
the original, phonetic and gloss rows carry the same number of cells (the
three parallel buffers always have equal length and are reset together). -/
theorem renderer_parallel_rows (stream : List StreamItem) (title : String) :
    (generate_chapter_html_output_parts stream title =
      headerParts title ++
        (renderBlocks stream).flatMap (fun b => blockParts b.zh b.py b.tr) ++
        ["</body></html>"]) ∧
    (∀ b ∈ renderBlocks stream, b.zh.length = b.py.length ∧ b.py.length = b.tr.length) := by
  constructor
  · unfold generate_chapter_html_output_parts renderBlocks
    rw [renderLoop_blocks]
    dsimp only
    by_cases hz : (stream.foldl blocksStep ([], ⟨[], [], []⟩)).2.zh = []
    · rw [if_pos hz, if_pos hz]
    · rw [if_neg hz, if_neg hz]
      simp
  · unfold renderBlocks
    have h := blocksStep_lengths stream [] ⟨[], [], []⟩ (by simp) (by simp)
    dsimp only
    by_cases hz : (stream.foldl blocksStep ([], ⟨[], [], []⟩)).2.zh = []
    · rw [if_pos hz]
      exact h.1
    · rw [if_neg hz]
      intro b hb
      rcases List.mem_append.mp hb with hb1 | hb2
      · exact h.1 b hb1
      · have : b = (stream.foldl blocksStep ([], ⟨[], [], []⟩)).2 := by simpa using hb2
        rw [this]
        exact h.2

/-- **C9 witness**: a one-annotation stream emits one block with one cell in
each of the three rows. -/
theorem renderer_parallel_rows_witness :
    ((⟨["你"], ["ni"], ["you"]⟩ : Block) ∈ renderBlocks [.ann ⟨"你", "ni", "you"⟩]) ∧
    ((["你"] : List String).length = (["ni"] : List String).length ∧
     (["ni"] : List String).length = (["you"] : List String).length) :=
  ⟨by decide,
   (renderer_parallel_rows [.ann ⟨"你", "ni", "you"⟩] "T").2 ⟨["你"], ["ni"], ["you"]⟩ (by decide)⟩

/-! ### Startup unavailability -/

lemma mainLoop_none (ext : Externals) (odir : String) :
    ∀ (gs : List (String × List PageData)) (st : LoopState),
      gs.foldl (mainStep ext none odir) st =
        { st with
            errored := st.errored + (gs.filter fun g => !g.2.isEmpty).length,
            records := st.records ++ (gs.filter fun g => !g.2.isEmpty).map
              fun g => ⟨g.1, g.2.map (·.path), .erroredCh⟩ } := by
  intro gs
  induction gs with
  | nil => intro st; simp
  | cons g gs ih =>
    intro st
    rw [List.foldl_cons]
    by_cases hg : g.2 = []
    · rw [show mainStep ext none odir st g = st from by simp [mainStep, hg]]
      rw [ih st]
      simp [List.filter_cons, hg]
    · rw [show mainStep ext none odir st g =
            { st with errored := st.errored + 1,
                      records := st.records ++ [⟨g.1, g.2.map (·.path), .erroredCh⟩] } from by
          simp [mainStep, hg]]
      rw [ih]
      simp [List.filter_cons, hg]
      omega

/-- **C2 counterexample**: with the library present but the translator
object failing to initialize (`none`), the run does *not* terminate before
chapter processing: the per-chapter loop is entered and the chapter is
counted as errored (a startup abort would have examined no chapters). -/
theorem startup_abort_counterexample :
    ((main true none ⟨fun _ => "你", fun s => [s], fun _ => "p"⟩
        ["data/volume1_chapter1_1.html"]
        [("data/volume1_chapter1_1.html", "S1")]).loopReached = true) ∧
    ((main true none ⟨fun _ => "你", fun s => [s], fun _ => "p"⟩
        ["data/volume1_chapter1_1.html"]
        [("data/volume1_chapter1_1.html", "S1")]).errored = 1) := by
  constructor <;> decide

/-- **C2 amended**: if the deep-translator library is missing, the run
terminates before grouping, touching nothing; if instead the translator
object fails to initialize, the run *continues* through the chapter loop,
marking every (non-empty) chapter errored — in both cases no chapter output
is written (file system unchanged), nothing is processed or skipped, and no
provider call is made. -/
theorem startup_unavailability (tro : Option Translator) (ext : Externals)
    (files : List String) (fs : FS) :
    (main false tro ext files fs = ⟨fs, fs, 0, 0, 0, 0, false, []⟩) ∧
    ((main true none ext files fs).fs = fs ∧
     (main true none ext files fs).fsBeforeCleanup = fs ∧
     (main true none ext files fs).processed = 0 ∧
     (main true none ext files fs).skipped = 0 ∧
     (main true none ext files fs).providerCalls = 0 ∧
     (main true none ext files fs).errored =
       ((group_html_files files).filter fun g => !g.2.isEmpty).length) := by
  constructor
  · rfl
  · unfold main
    by_cases hg : group_html_files files = []
    · rw [if_neg (by simp), if_pos hg, hg]
      simp
    · rw [if_neg (by simp), if_neg hg]
      rw [mainLoop_none ext OUTPUT_DIRECTORY (group_html_files files) ⟨fs, 0, 0, 0, [], 0, []⟩]
      simp

/-! ### Source cleanup -/

lemma pagePathsOf_cons (g : String × List PageData) (rest : List (String × List PageData)) :
    pagePathsOf (g :: rest) = g.2.map (·.path) ++ pagePathsOf rest := by
  simp [pagePathsOf]

lemma pagePathsOf_insertPage (key : String) (pd : PageData) :
    ∀ groups, (pagePathsOf (insertPage groups key pd)).Perm (pd.path :: pagePathsOf groups) := by
  intro groups
  induction groups with
  | nil => simp [insertPage, pagePathsOf]
  | cons g rest ih =>
    obtain ⟨k, ps⟩ := g
    by_cases hk : k = key
    · rw [show insertPage ((k, ps) :: rest) key pd = (k, ps ++ [pd]) :: rest from by
          simp [insertPage, hk]]
      rw [pagePathsOf_cons, pagePathsOf_cons, List.map_append, List.append_assoc]
      exact List.perm_middle
    · rw [show insertPage ((k, ps) :: rest) key pd = (k, ps) :: insertPage rest key pd from by
          simp [insertPage, hk]]
      rw [pagePathsOf_cons, pagePathsOf_cons]
      exact (ih.append_left (ps.map (·.path))).trans List.perm_middle

lemma pagePathsOf_foldl_groupStep :
    ∀ (files : List String) (acc : List (String × List PageData)),
      (pagePathsOf (files.foldl groupStep acc)).Perm
        (pagePathsOf acc ++ files.filter fun f => (parse_filename f).isSome) := by
  intro files
  induction files with
  | nil => intro acc; simp
  | cons f files ih =>
    intro acc
    rw [List.foldl_cons]
    cases h : parse_filename f with
    | none =>
      rw [show groupStep acc f = acc from by simp [groupStep, h]]
      rw [show (f :: files).filter (fun f => (parse_filename f).isSome) =
            files.filter fun f => (parse_filename f).isSome from by
          simp [List.filter_cons, h]]
      exact ih acc
    | some t =>
      obtain ⟨v, c, n, ps⟩ := t
      rw [show groupStep acc f =
            insertPage acc ("volume" ++ v ++ "_chapter" ++ c) ⟨f, n⟩ from by
          simp [groupStep, h]]
      rw [show (f :: files).filter (fun f => (parse_filename f).isSome) =
            f :: files.filter (fun f => (parse_filename f).isSome) from by
          simp [List.filter_cons, h]]
      refine (ih _).trans ?_
      refine ((pagePathsOf_insertPage _ _ acc).append_right _).trans ?_
      exact List.perm_middle.symm

lemma pagePathsOf_map_sort (groups : List (String × List PageData)) :
    (pagePathsOf (groups.map fun g => (g.1, sortPages g.2))).Perm (pagePathsOf groups) := by
  induction groups with
  | nil => simp [pagePathsOf]
  | cons g rest ih =>
    rw [List.map_cons, pagePathsOf_cons, pagePathsOf_cons]
    have hs : (sortPages g.2).Perm g.2 := by
      unfold sortPages
      exact List.perm_insertionSort (fun (a b : PageData) => a.page_num ≤ b.page_num) g.2
    exact (hs.map (·.path)).append ih

lemma group_paths_nodup (files : List String) (h : files.Nodup) :
    (pagePathsOf (group_html_files files)).Nodup := by
  unfold group_html_files
  have hperm : (pagePathsOf (group_html_files files)).Perm
      ((files.filter fun f => ".html".toList.isSuffixOf f.toList).filter
        fun f => (parse_filename f).isSome) := by
    unfold group_html_files
    refine (pagePathsOf_map_sort _).trans ?_
    simpa using pagePathsOf_foldl_groupStep
      (files.filter fun f => ".html".toList.isSuffixOf f.toList) []
  have hsub : ((files.filter fun f => ".html".toList.isSuffixOf f.toList).filter
      fun f => (parse_filename f).isSome).Sublist files :=
    (List.filter_sublist _).trans (List.filter_sublist _)
  exact hperm.nodup_iff.mpr (hsub.nodup h)

lemma nodup_flatMap_filter {α β : Type} (f : α → List β) (q : α → Bool) :
    ∀ l : List α, (l.flatMap f).Nodup → ((l.filter q).flatMap f).Nodup := by
  intro l
  induction l with
  | nil => intro _; simp
  | cons a l ih =>
    intro h
    rw [List.flatMap_cons, List.nodup_append] at h
    obtain ⟨ha, hl, hd⟩ := h
    rw [List.filter_cons]
    by_cases hq : q a
    · rw [if_pos hq, List.flatMap_cons, List.nodup_append]
      refine ⟨ha, ih hl, ?_⟩
      intro x hxa hxl
      rcases List.mem_flatMap.mp hxl with ⟨b, hb, hxb⟩
      exact hd hxa (List.mem_flatMap.mpr ⟨b, (List.filter_sublist l).subset hb, hxb⟩)
    · rw [if_neg hq]
      exact ih hl

lemma flatMap_nodup_disjoint {α β : Type} (f : α → List β) :
    ∀ l : List α, (l.flatMap f).Nodup →
      ∀ a ∈ l, ∀ b ∈ l, a ≠ b → ∀ x ∈ f a, x ∉ f b := by
  intro l
  induction l with
  | nil => intro _ a ha; simp at ha
  | cons y l ih =>
    intro h a ha b hb hab x hxa hxb
    rw [List.flatMap_cons, List.nodup_append] at h
    obtain ⟨hy, hl, hd⟩ := h
    rcases List.mem_cons.mp ha with rfl | ha'
    · rcases List.mem_cons.mp hb with rfl | hb'
      · exact hab rfl
      · exact hd hxa (List.mem_flatMap.mpr ⟨b, hb', hxb⟩)
    · rcases List.mem_cons.mp hb with rfl | hb'
      · exact hd hxb (List.mem_flatMap.mpr ⟨a, ha', hxa⟩)
      · exact ih hl a ha' b hb' hab x hxa hxb

lemma process_chapter_paths (ext : Externals) (tr : Translator) (fs : FS)
    (key : String) (pages : List PageData) (odir : String) :
    (process_chapter ext tr fs key pages odir).paths = [] ∨
    (process_chapter ext tr fs key pages odir).paths = pages.map (·.path) := by
  unfold process_chapter
  by_cases h : (fsLookup fs (output_filename odir key)).isSome
  · rw [if_pos h]; right; rfl
  · rw [if_neg h]
    by_cases h2 : pyStripS (read_and_concatenate_chapter_text ext pages) = ""
    · rw [if_pos h2]; left; rfl
    · rw [if_neg h2]; right; rfl

lemma mainLoop_spec (ext : Externals) (tr : Translator) (odir : String) :
    ∀ (gs : List (String × List PageData)) (st : LoopState),
      ∃ Δ : List ChapterRecord,
        (gs.foldl (mainStep ext (some tr) odir) st).records = st.records ++ Δ ∧
        (gs.foldl (mainStep ext (some tr) odir) st).allProcessed =
          st.allProcessed ++
            (Δ.filter fun r => r.outcome == .processed).flatMap (·.pagePaths) ∧
        Δ.flatMap (·.pagePaths) =
          (gs.filter fun g => !g.2.isEmpty).flatMap fun g => g.2.map (·.path) := by
  intro gs
  induction gs with
  | nil => intro st; exact ⟨[], by simp, by simp, by simp⟩
  | cons g gs ih =>
    intro st
    rw [List.foldl_cons]
    by_cases hg : g.2 = []
    · rw [show mainStep ext (some tr) odir st g = st from by simp [mainStep, hg]]
      obtain ⟨Δ, h1, h2, h3⟩ := ih st
      exact ⟨Δ, h1, h2, by simp [List.filter_cons, hg, h3]⟩
    · by_cases hs : (process_chapter ext tr st.fs g.1 g.2 odir).skipped
      · rw [show mainStep ext (some tr) odir st g =
              { st with fs := (process_chapter ext tr st.fs g.1 g.2 odir).fs,
                        skipped := st.skipped + 1,
                        calls := st.calls + (process_chapter ext tr st.fs g.1 g.2 odir).calls,
                        records := st.records ++ [⟨g.1, g.2.map (·.path), .skippedCh⟩] } from by
            simp [mainStep, hg, hs]]
        obtain ⟨Δ, h1, h2, h3⟩ := ih _
        refine ⟨⟨g.1, g.2.map (·.path), .skippedCh⟩ :: Δ, ?_, ?_, ?_⟩
        · rw [h1]; simp
        · rw [h2]; simp [List.filter_cons]
        · rw [List.flatMap_cons, h3]
          simp [List.filter_cons, hg]
      · by_cases hp : (process_chapter ext tr st.fs g.1 g.2 odir).paths = []
        · rw [show mainStep ext (some tr) odir st g =
                { st with fs := (process_chapter ext tr st.fs g.1 g.2 odir).fs,
                          errored := st.errored + 1,
                          calls := st.calls + (process_chapter ext tr st.fs g.1 g.2 odir).calls,
                          records := st.records ++ [⟨g.1, g.2.map (·.path), .erroredCh⟩] } from by
              simp [mainStep, hg, hs, hp]]
          obtain ⟨Δ, h1, h2, h3⟩ := ih _
          refine ⟨⟨g.1, g.2.map (·.path), .erroredCh⟩ :: Δ, ?_, ?_, ?_⟩
          · rw [h1]; simp
          · rw [h2]; simp [List.filter_cons]
          · rw [List.flatMap_cons, h3]
            simp [List.filter_cons, hg]
        · have hmap : (process_chapter ext tr st.fs g.1 g.2 odir).paths = g.2.map (·.path) :=
            (process_chapter_paths ext tr st.fs g.1 g.2 odir).resolve_left hp
          rw [show mainStep ext (some tr) odir st g =
                { st with fs := (process_chapter ext tr st.fs g.1 g.2 odir).fs,
                          processed := st.processed + 1,
                          allProcessed := st.allProcessed ++
                            (process_chapter ext tr st.fs g.1 g.2 odir).paths,
                          calls := st.calls + (process_chapter ext tr st.fs g.1 g.2 odir).calls,
                          records := st.records ++ [⟨g.1, g.2.map (·.path), .processed⟩] } from by
              simp [mainStep, hg, hs, hp]]
          obtain ⟨Δ, h1, h2, h3⟩ := ih _
          refine ⟨⟨g.1, g.2.map (·.path), .processed⟩ :: Δ, ?_, ?_, ?_⟩
          · rw [h1]; simp
          · rw [h2]; simp [List.filter_cons, hmap]
          · rw [List.flatMap_cons, h3]
            simp [List.filter_cons, hg]

lemma fsLookup_fsRemove (fs : FS) (q p : String) :
    fsLookup (fsRemove fs q) p = if p = q then none else fsLookup fs p := by
  induction fs with
  | nil => by_cases h : p = q <;> simp [fsLookup, fsRemove, h]
  | cons e fs ih =>
    by_cases heq : e.1 = q
    · rw [show fsRemove (e :: fs) q = fsRemove fs q from by
          simp [fsRemove, List.filter_cons, heq]]
      rw [ih]
      by_cases hpq : p = q
      · simp [hpq]
      · have hne : ¬(e.1 = p) := fun hh => hpq (hh.symm.trans heq)
        rw [if_neg hpq, if_neg hpq]
        unfold fsLookup
        rw [List.find?_cons_of_neg _ (by simpa using hne)]
    · rw [show fsRemove (e :: fs) q = e :: fsRemove fs q from by
          simp [fsRemove, List.filter_cons, heq]]
      by_cases hep : e.1 = p
      · have hpq : ¬(p = q) := fun hh => heq (hep.trans hh)
        rw [if_neg hpq]
        unfold fsLookup
        rw [List.find?_cons_of_pos _ (by simpa using hep),
            List.find?_cons_of_pos _ (by simpa using hep)]
      · unfold fsLookup
        rw [List.find?_cons_of_neg _ (by simpa using hep),
            List.find?_cons_of_neg _ (by simpa using hep)]
        exact ih

lemma fsLookup_foldl_fsRemove :
    ∀ (L : List String) (fs : FS) (p : String),
      fsLookup (L.foldl fsRemove fs) p = if p ∈ L then none else fsLookup fs p := by
  intro L
  induction L with
  | nil => intro fs p; simp
  | cons q L ih =>
    intro fs p
    rw [List.foldl_cons, ih]
    by_cases hL : p ∈ L
    · simp [hL]
    · rw [if_neg hL, fsLookup_fsRemove]
      by_cases hpq : p = q
      · simp [hpq]
      · rw [if_neg hpq, if_neg (by simp [hpq, hL])]

/-- **C1 counterexample**: cleanup is enabled, chapter `volume1_chapter1` is
skipped (its output pre-exists) while `volume2_chapter1` is processed; after
the full pass, the *skipped* chapter's source page file is still present —
refuting the claim that skipped chapters' source files are deleted. -/
theorem source_cleanup_counterexample :
    DELETE_SOURCE_FILES_AFTER_PROCESSING = true ∧
    (main true (some fun _ _ => .ok "g") ⟨fun _ => "你", fun s => [s], fun _ => "p"⟩
        ["data/volume1_chapter1_1.html", "data/volume2_chapter1_1.html"]
        [("output/volume1_chapter1.html", "OLD"), ("data/volume1_chapter1_1.html", "S1"),
         ("data/volume2_chapter1_1.html", "S2")]).records.map
      (fun r => (r.key, r.outcome)) =
      [("volume1_chapter1", .skippedCh), ("volume2_chapter1", .processed)] ∧
    fsLookup (main true (some fun _ _ => .ok "g") ⟨fun _ => "你", fun s => [s], fun _ => "p"⟩
        ["data/volume1_chapter1_1.html", "data/volume2_chapter1_1.html"]
        [("output/volume1_chapter1.html", "OLD"), ("data/volume1_chapter1_1.html", "S1"),
         ("data/volume2_chapter1_1.html", "S2")]).fs
      "data/volume1_chapter1_1.html" = some "S1" ∧
    fsLookup (main true (some fun _ _ => .ok "g") ⟨fun _ => "你", fun s => [s], fun _ => "p"⟩
        ["data/volume1_chapter1_1.html", "data/volume2_chapter1_1.html"]
        [("output/volume1_chapter1.html", "OLD"), ("data/volume1_chapter1_1.html", "S1"),
         ("data/volume2_chapter1_1.html", "S2")]).fs
      "data/volume2_chapter1_1.html" = none := by
  refine ⟨rfl, ?_, ?_, ?_⟩ <;> decide

/-- **C1 amended**: with source cleanup enabled, after the full pass the
source page files of every chapter *processed in this pass* are deleted,
while the source page files of every skipped or errored chapter are left in
place (unchanged by the cleanup phase), provided the scanned filenames are
distinct. -/
theorem source_cleanup_spares_skipped (tr : Translator) (ext : Externals)
    (files : List String) (fs : FS) (hnd : files.Nodup) :
    ∀ rec ∈ (main true (some tr) ext files fs).records,
      ∀ p ∈ rec.pagePaths,
        (rec.outcome = .processed →
          fsLookup (main true (some tr) ext files fs).fs p = none) ∧
        (rec.outcome ≠ .processed →
          fsLookup (main true (some tr) ext files fs).fs p =
            fsLookup (main true (some tr) ext files fs).fsBeforeCleanup p) := by
  intro rec hrec p hp
  by_cases hg : group_html_files files = []
  · have hmain : main true (some tr) ext files fs = ⟨fs, fs, 0, 0, 0, 0, false, []⟩ := by
      unfold main
      rw [if_neg (by simp), if_pos hg]
    rw [hmain] at hrec
    simp at hrec
  · have hmain : main true (some tr) ext files fs =
        ⟨if DELETE_SOURCE_FILES_AFTER_PROCESSING &&
            ((group_html_files files).foldl (mainStep ext (some tr) OUTPUT_DIRECTORY)
              ⟨fs, 0, 0, 0, [], 0, []⟩).allProcessed ≠ [] then
          ((group_html_files files).foldl (mainStep ext (some tr) OUTPUT_DIRECTORY)
            ⟨fs, 0, 0, 0, [], 0, []⟩).allProcessed.foldl fsRemove
            ((group_html_files files).foldl (mainStep ext (some tr) OUTPUT_DIRECTORY)
              ⟨fs, 0, 0, 0, [], 0, []⟩).fs
        else
          ((group_html_files files).foldl (mainStep ext (some tr) OUTPUT_DIRECTORY)
            ⟨fs, 0, 0, 0, [], 0, []⟩).fs,
        ((group_html_files files).foldl (mainStep ext (some tr) OUTPUT_DIRECTORY)
          ⟨fs, 0, 0, 0, [], 0, []⟩).fs,
        ((group_html_files files).foldl (mainStep ext (some tr) OUTPUT_DIRECTORY)
          ⟨fs, 0, 0, 0, [], 0, []⟩).processed,
        ((group_html_files files).foldl (mainStep ext (some tr) OUTPUT_DIRECTORY)
          ⟨fs, 0, 0, 0, [], 0, []⟩).skipped,
        ((group_html_files files).foldl (mainStep ext (some tr) OUTPUT_DIRECTORY)
          ⟨fs, 0, 0, 0, [], 0, []⟩).errored,
        ((group_html_files files).foldl (mainStep ext (some tr) OUTPUT_DIRECTORY)
          ⟨fs, 0, 0, 0, [], 0, []⟩).calls,
        true,
        ((group_html_files files).foldl (mainStep ext (some tr) OUTPUT_DIRECTORY)
          ⟨fs, 0, 0, 0, [], 0, []⟩).records⟩ := by
      unfold main
      rw [if_neg (by simp), if_neg hg]
    obtain ⟨Δ, hrecs, hall, hpaths⟩ :=
      mainLoop_spec ext tr OUTPUT_DIRECTORY (group_html_files files) ⟨fs, 0, 0, 0, [], 0, []⟩
    rw [hmain] at hrec ⊢
    dsimp only at hrec ⊢
    rw [hrecs] at hrec
    simp only [List.nil_append] at hrec
    have hall' : ((group_html_files files).foldl (mainStep ext (some tr) OUTPUT_DIRECTORY)
        ⟨fs, 0, 0, 0, [], 0, []⟩).allProcessed =
        (Δ.filter fun r => r.outcome == .processed).flatMap (·.pagePaths) := by
      rw [hall]; simp
    have hnodup : (Δ.flatMap (·.pagePaths)).Nodup := by
      rw [hpaths]
      have := group_paths_nodup files hnd
      unfold pagePathsOf at this
      exact nodup_flatMap_filter _ _ _ this
    constructor
    · intro hout
      have hpIn : p ∈ ((group_html_files files).foldl (mainStep ext (some tr) OUTPUT_DIRECTORY)
          ⟨fs, 0, 0, 0, [], 0, []⟩).allProcessed := by
        rw [hall']
        exact List.mem_flatMap.mpr
          ⟨rec, List.mem_filter.mpr ⟨hrec, by simp [hout]⟩, hp⟩
      have hne : ((group_html_files files).foldl (mainStep ext (some tr) OUTPUT_DIRECTORY)
          ⟨fs, 0, 0, 0, [], 0, []⟩).allProcessed ≠ [] := by
        intro h0
        rw [h0] at hpIn
        simp at hpIn
      rw [if_pos (by simp [DELETE_SOURCE_FILES_AFTER_PROCESSING, hne])]
      rw [fsLookup_foldl_fsRemove, if_pos hpIn]
    · intro hout
      have hpNotIn : p ∉ ((group_html_files files).foldl (mainStep ext (some tr) OUTPUT_DIRECTORY)
          ⟨fs, 0, 0, 0, [], 0, []⟩).allProcessed := by
        rw [hall']
        intro hmem
        rcases List.mem_flatMap.mp hmem with ⟨rec', hrec', hp'⟩
        have hrec'Δ := (List.mem_filter.mp hrec').1
        have hout' : rec'.outcome = .processed := by
          have := (List.mem_filter.mp hrec').2
          simpa using this
        have hne : rec ≠ rec' := fun hh => hout (hh ▸ hout')
        exact flatMap_nodup_disjoint _ Δ hnodup rec hrec rec' hrec'Δ hne p hp hp'
      by_cases hempty : ((group_html_files files).foldl (mainStep ext (some tr) OUTPUT_DIRECTORY)
          ⟨fs, 0, 0, 0, [], 0, []⟩).allProcessed = []
      · rw [if_neg (by simp [hempty])]
      · rw [if_pos (by simp [DELETE_SOURCE_FILES_AFTER_PROCESSING, hempty])]
        rw [fsLookup_foldl_fsRemove, if_neg hpNotIn]

/-- **C1 amended witness**: a single processed chapter's source file is gone
after the pass. -/
theorem source_cleanup_spares_skipped_witness :
    (["data/volume1_chapter1_1.html"] : List String).Nodup ∧
    ((⟨"volume1_chapter1", ["data/volume1_chapter1_1.html"], .processed⟩ : ChapterRecord) ∈
      (main true (some fun _ _ => .ok "g") ⟨fun _ => "你", fun s => [s], fun _ => "p"⟩
        ["data/volume1_chapter1_1.html"] [("data/volume1_chapter1_1.html", "S1")]).records) ∧
    fsLookup (main true (some fun _ _ => .ok "g") ⟨fun _ => "你", fun s => [s], fun _ => "p"⟩
        ["data/volume1_chapter1_1.html"] [("data/volume1_chapter1_1.html", "S1")]).fs
      "data/volume1_chapter1_1.html" = none :=
  ⟨by decide, by decide,
   (source_cleanup_spares_skipped (fun _ _ => .ok "g") ⟨fun _ => "你", fun s => [s], fun _ => "p"⟩
      ["data/volume1_chapter1_1.html"] [("data/volume1_chapter1_1.html", "S1")] (by decide)
      ⟨"volume1_chapter1", ["data/volume1_chapter1_1.html"], .processed⟩ (by decide)
      "data/volume1_chapter1_1.html" (by decide)).1 rfl⟩

end CiyuReader
